import Mathlib

/-!
Verification of the capture-to-normalized-endpoint pipeline of the
url-postman-collection-maker repository (modules `browserController.ts` and
`aiGenerator.ts`), via a shallow embedding in Lean 4.

Machine strings are Lean `String`s, JS arrays are Lean `List`s,
`Record<string, string>` objects are association lists in first-insertion
order with last-write-wins values, JS `Map` objects (insertion-order
iteration) are association lists, thrown exceptions are `Except`, and the
WHATWG `new URL` constructor is modelled by `parseURL` below.
-/

set_option autoImplicit false

namespace MockGen

/-! ### Model of the WHATWG URL parser (`new URL(s)`)

The model covers absolute hierarchical URLs `scheme://[userinfo@]host[:port]
[/path][?query][#fragment]`.  Simplifications relative to the full WHATWG
algorithm, none of which matter for the strings appearing in the development:
no percent-decoding, no path normalization, no punycode, no IPv6 hosts, and
non-hierarchical URLs (no `//` after the scheme) are treated as a parse
failure.  Parse failure models the constructor throwing `TypeError`. -/

/-- A parsed URL record: the fields of the JS `URL` object the source reads.
`search` is the query string without the leading `?`. -/
structure URLRec where
  scheme : String
  hostname : String
  pathname : String
  search : String
  fragment : String
deriving Repr, DecidableEq

/-- Split a character list at the first occurrence of `c`; `none` when `c`
does not occur. -/
def splitAtFirst (c : Char) : List Char → Option (List Char × List Char)
  | [] => none
  | x :: xs =>
    if x = c then some ([], xs)
    else match splitAtFirst c xs with
      | none => none
      | some (l, r) => some (x :: l, r)

/-- The characters after the last occurrence of `c` (the whole list when `c`
does not occur); used to drop the `userinfo@` part of an authority. -/
def afterLast (c : Char) (l : List Char) : List Char :=
  (l.reverse.takeWhile (fun x => x ≠ c)).reverse

/-- First character a URL scheme may start with. -/
def isSchemeStart (c : Char) : Bool := c.isAlpha

/-- Characters a URL scheme may contain. -/
def isSchemeChar (c : Char) : Bool :=
  c.isAlphanum || c = '+' || c = '-' || c = '.'

/-- Characters that terminate the authority component. -/
def isAuthorityEnd (c : Char) : Bool := c = '/' || c = '?' || c = '#'

/-- Characters that terminate the path component. -/
def isPathEnd (c : Char) : Bool := c = '?' || c = '#'

/-- Model of `new URL(s)` for absolute hierarchical URLs; `none` models the
constructor throwing. -/
def parseURL (s : String) : Option URLRec :=
  match splitAtFirst ':' s.toList with
  | none => none
  | some (sch, rest) =>
    if sch = [] then none
    else if !(isSchemeStart (sch.headD 'a') && sch.all isSchemeChar) then none
    else match rest with
      | '/' :: '/' :: rest₂ =>
        let authority := rest₂.takeWhile (fun c => !isAuthorityEnd c)
        let tail := rest₂.dropWhile (fun c => !isAuthorityEnd c)
        let hostport := afterLast '@' authority
        let host := hostport.takeWhile (fun c => c ≠ ':')
        let port := (hostport.dropWhile (fun c => c ≠ ':')).drop 1
        if host = [] then none
        else if !(port.all Char.isDigit) then none
        else
          let pathRaw := tail.takeWhile (fun c => !isPathEnd c)
          let afterPath := tail.dropWhile (fun c => !isPathEnd c)
          let search :=
            match afterPath with
            | '?' :: q => q.takeWhile (fun c => c ≠ '#')
            | _ => []
          let fragment := (afterPath.dropWhile (fun c => c ≠ '#')).drop 1
          some { scheme := String.mk (sch.map Char.toLower)
                 hostname := String.mk (host.map Char.toLower)
                 pathname := if pathRaw = [] then "/" else String.mk pathRaw
                 search := String.mk search
                 fragment := String.mk fragment }
      | _ => none

/-! ### Model of `URLSearchParams` over the query string -/

/-- Split a character list on every occurrence of the separator `c`;
`splitListOn c` on the characters of `s` matches `s.split(c)` in JS and
`s.splitOn c` in Lean. -/
def splitListOn (c : Char) : List Char → List (List Char)
  | [] => [[]]
  | x :: xs =>
    if x = c then [] :: splitListOn c xs
    else match splitListOn c xs with
      | [] => [[x]]
      | p :: ps => (x :: p) :: ps

/-- One `key=value` piece of a query string, split at the first `=`; pieces
without `=` get an empty value, empty pieces are skipped (as in
`URLSearchParams`). -/
def pairOfPiece (piece : String) : Option (String × String) :=
  if piece = "" then none
  else match splitAtFirst '=' piece.toList with
    | none => some (piece, "")
    | some (k, v) => some (String.mk k, String.mk v)

/-- The ordered `key=value` pairs of a query string, as `URLSearchParams`
iterates them (percent-decoding omitted). -/
def queryPairs (q : String) : List (String × String) :=
  ((splitListOn '&' q.toList).map String.mk).filterMap pairOfPiece

/-- Model of `searchParams.has(k)`. -/
def searchParamsHas (q : String) (k : String) : Bool :=
  (queryPairs q).any (fun p => p.1 = k)

/-- Whether `n` occurs as a contiguous run inside `h`. -/
def containsSubAux (n : List Char) : List Char → Bool
  | [] => n.isEmpty
  | x :: xs => n.isPrefixOf (x :: xs) || containsSubAux n xs

/-- Model of JS `hay.includes(needle)` (substring containment). -/
def containsSub (needle hay : String) : Bool :=
  containsSubAux needle.toList hay.toList

/-- Model of JS `s.endsWith(suffix)` as character-list suffix testing. -/
def jsEndsWith (s suffix : String) : Bool :=
  suffix.toList.isSuffixOf s.toList

/-- Model of JS `s.toUpperCase()` on the ASCII method strings it is applied
to. -/
def jsToUpper (s : String) : String :=
  String.mk (s.toList.map Char.toUpper)

/-- Model of assigning `record[k] = v` on a JS string-keyed object: the key
keeps its first-insertion position, the value is overwritten. -/
def recordSet (ps : List (String × String)) (k v : String) : List (String × String) :=
  if ps.any (fun p => p.1 = k) then ps.map (fun p => if p.1 = k then (k, v) else p)
  else ps ++ [(k, v)]

/-! ### Exchange Classifier and Exchange Filter
(`browserController.ts` `isBffBlockApiPattern` lines 285–296 /
`aiGenerator.ts` lines 664–676, and `isHostAllowed` lines 156–176) -/

/-- `isBffBlockApiPattern(url)`: true iff the URL parses, its `pathname`
contains the substring `/blocks`, and its query has a `keys` parameter; a
parse failure is caught and classified `false`. -/
def isBffBlockApiPatternUrl (url : String) : Bool :=
  match parseURL url with
  | some u => containsSub "/blocks" u.pathname && searchParamsHas u.search "keys"
  | none => false

/-- `isHostAllowed(url)` with the configured `allowed_hosts`: an empty list
allows everything before any parsing; otherwise the URL is parsed and the
hostname must equal an entry or end with `"." + entry`; a parse failure is
caught and rejected. -/
def isHostAllowed (allowedHosts : List String) (url : String) : Bool :=
  if allowedHosts.length = 0 then true
  else match parseURL url with
    | some u => allowedHosts.any (fun h => u.hostname = h || jsEndsWith u.hostname ("." ++ h))
    | none => false

/-! ### Data model (`types/index.ts`) -/

/-- `NetworkRequest` from `types/index.ts`. -/
structure NetworkRequest where
  method : String
  url : String
  headers : List (String × String)
  body : Option String
  timestamp : Nat
deriving Repr, DecidableEq

/-- `NetworkResponse` from `types/index.ts`. -/
structure NetworkResponse where
  status : Nat
  statusText : String
  headers : List (String × String)
  body : String
  contentType : String
  timestamp : Nat
deriving Repr, DecidableEq

/-- `NetworkLogEntry` from `types/index.ts`. -/
structure NetworkLogEntry where
  id : String
  request : NetworkRequest
  response : NetworkResponse
  resourceType : String
  isBffBlockApi : Bool
deriving Repr, DecidableEq

/-- `ProcessedApiData` from `types/index.ts`: the canonical endpoint record
handed downstream.  Its five fields are exactly those of the source
interface; in particular it has no block-API flag. -/
structure ProcessedApiData where
  method : String
  url : String
  responseBody : String
  queryParams : List (String × String)
  pathParams : List (String × String)
deriving Repr, DecidableEq

/-- `AppError` as far as the processing paths use it (category, code,
message; the numeric timestamp and original error carry no information the
claims touch). -/
structure AppError where
  category : String
  code : String
  message : String
deriving Repr, DecidableEq

/-- `EndpointMergeInfo` from `aiGenerator.ts`. -/
structure EndpointMergeInfo where
  endpointKey : String
  logs : List NetworkLogEntry
  isBffBlockApi : Bool
deriving Repr, DecidableEq

/-- `DataProcessingOptions` with the constructor defaults of
`DataProcessor` (`mergeDuplicates: true, prioritizeBffApis: true,
maxApis: 50, includeHeaders: false`).  `maxApis` is a JS number used only
through `maxApis > 0` and `slice(0, maxApis)`, modelled as `Int`. -/
structure DataProcessingOptions where
  mergeDuplicates : Bool := true
  prioritizeBffApis : Bool := true
  maxApis : Int := 50
  includeHeaders : Bool := false
deriving Repr, DecidableEq

/-- `DataProcessingResult` from `aiGenerator.ts`. -/
structure DataProcessingResult where
  success : Bool
  processedData : List ProcessedApiData
  totalLogs : Nat
  bffApiCount : Nat
  uniqueEndpoints : Nat
  error : Option String
deriving Repr, DecidableEq

/-! ### Endpoint Normalizer (`aiGenerator.ts`, `DataProcessor`) -/

/-- `DataProcessor.isBffBlockApiPattern(logEntry)` (lines 664–676): the same
classifier applied to `logEntry.request.url`. -/
def entryIsBffBlockApi (log : NetworkLogEntry) : Bool :=
  isBffBlockApiPatternUrl log.request.url

/-- `extractQueryParams(url)` (lines 681–694): the representative URL's
query pairs written into a fresh record; parse failure is caught and yields
the empty record. -/
def extractQueryParams (url : String) : List (String × String) :=
  match parseURL url with
  | none => []
  | some u => (queryPairs u.search).foldl (fun ps p => recordSet ps p.1 p.2) []

/-- `extractPathParams(url)` (lines 699–703): always the empty record in
this version. -/
def extractPathParams (_url : String) : List (String × String) := []

/-- `createEndpointKey(logEntry)` (lines 708–720): the grouping key
`method.toUpperCase() + " " + hostname + pathname`, falling back to the
literal `method + " " + url` when URL parsing throws. -/
def createEndpointKey (log : NetworkLogEntry) : String :=
  match parseURL log.request.url with
  | some u => jsToUpper log.request.method ++ " " ++ u.hostname ++ u.pathname
  | none => log.request.method ++ " " ++ log.request.url

/-- One step of `groupLogsByEndpoint`'s `forEach` body (lines 728–744):
append the log to its existing group (OR-ing the block flag) or start a new
group at the end of the map's insertion order. -/
def addLogToGroups (groups : List EndpointMergeInfo) (log : NetworkLogEntry) :
    List EndpointMergeInfo :=
  let key := createEndpointKey log
  let isB := entryIsBffBlockApi log
  if groups.any (fun g => g.endpointKey = key) then
    groups.map (fun g =>
      if g.endpointKey = key then
        { g with logs := g.logs ++ [log], isBffBlockApi := g.isBffBlockApi || isB }
      else g)
  else
    groups ++ [{ endpointKey := key, logs := [log], isBffBlockApi := isB }]

/-- `groupLogsByEndpoint(logs)` (lines 725–747); the JS `Map` with its
insertion-order iteration is modelled as a list of groups in first-seen
order. -/
def groupLogsByEndpoint (logs : List NetworkLogEntry) : List EndpointMergeInfo :=
  logs.foldl addLogToGroups []

/-- The representative scan of `mergeEndpointLogs` (lines 763–772): starting
from the base log, a `forEach` that replaces the best pair whenever a
strictly longer response body is seen. -/
def pickBest (b : String × NetworkLogEntry) (logs : List NetworkLogEntry) :
    String × NetworkLogEntry :=
  logs.foldl
    (fun b log =>
      if log.response.body.length > b.1.length then (log.response.body, log) else b)
    b

/-- `mergeEndpointLogs(mergeInfo)` (lines 752–784): throws `EMPTY_LOGS` on an
empty group, otherwise builds the `ProcessedApiData` of the best log. -/
def mergeEndpointLogs (info : EndpointMergeInfo) : Except AppError ProcessedApiData :=
  match info.logs with
  | [] => .error { category := "VALIDATION", code := "EMPTY_LOGS"
                   message := "Cannot merge empty logs array" }
  | baseLog :: _ =>
    let best := pickBest (baseLog.response.body, baseLog) info.logs
    .ok { method := jsToUpper best.2.request.method
          url := best.2.request.url
          responseBody := best.1
          queryParams := extractQueryParams best.2.request.url
          pathParams := extractPathParams best.2.request.url }

/-- `processLogEntry(logEntry)` (lines 789–799). -/
def processLogEntry (log : NetworkLogEntry) : ProcessedApiData :=
  { method := jsToUpper log.request.method
    url := log.request.url
    responseBody := log.response.body
    queryParams := extractQueryParams log.request.url
    pathParams := extractPathParams log.request.url }

/-- The comparator passed to `Array.prototype.sort` in
`filterAndPrioritizeLogs` (lines 809–816). -/
def bffComparator (a b : NetworkLogEntry) : Int :=
  let aIsB := entryIsBffBlockApi a
  let bIsB := entryIsBffBlockApi b
  if aIsB && !bIsB then -1
  else if !aIsB && bIsB then 1
  else 0

/-- Stable insertion of `x` into an already-sorted list: `x` is placed
before the first element `y` with `cmp x y ≤ 0`, so elements that compare
equal keep their original relative order. -/
def sortedInsert (cmp : NetworkLogEntry → NetworkLogEntry → Int)
    (x : NetworkLogEntry) : List NetworkLogEntry → List NetworkLogEntry
  | [] => [x]
  | y :: ys => if cmp x y ≤ 0 then x :: y :: ys else y :: sortedInsert cmp x ys

/-- Model of ES2019 `Array.prototype.sort(cmp)` (required to be stable) as a
stable insertion sort. -/
def stableSort (cmp : NetworkLogEntry → NetworkLogEntry → Int) :
    List NetworkLogEntry → List NetworkLogEntry
  | [] => []
  | x :: xs => sortedInsert cmp x (stableSort cmp xs)

/-- `filterAndPrioritizeLogs(logs)` (lines 804–825): copy, optionally sort
block APIs first, then `slice(0, maxApis)` when `maxApis > 0`. -/
def filterAndPrioritizeLogs (opts : DataProcessingOptions)
    (logs : List NetworkLogEntry) : List NetworkLogEntry :=
  let sorted := if opts.prioritizeBffApis then stableSort bffComparator logs else logs
  if opts.maxApis > 0 then sorted.take opts.maxApis.toNat else sorted

/-- One iteration of the merge branch's `forEach` (lines 856–863): push the
merged record and count the group when its flag is set; a throw inside
`mergeEndpointLogs` escapes. -/
def processMergedStep (acc : List ProcessedApiData × Nat) (g : EndpointMergeInfo) :
    Except AppError (List ProcessedApiData × Nat) := do
  let p ← mergeEndpointLogs g
  pure (acc.1 ++ [p], acc.2 + (if g.isBffBlockApi then 1 else 0))

/-- The merge branch of `processNetworkLogs` (lines 851–863): a `forEach`
over the groups that pushes each merged record and counts the groups whose
flag is set; a throw inside the loop escapes to the surrounding catch. -/
def processMerged (groups : List EndpointMergeInfo) :
    Except AppError (List ProcessedApiData × Nat) :=
  groups.foldlM processMergedStep ([], 0)

/-- The result built by the catch block of `processNetworkLogs`
(lines 886–898). -/
def failureResult (totalLogs : Nat) (msg : String) : DataProcessingResult :=
  { success := false, processedData := [], totalLogs := totalLogs
    bffApiCount := 0, uniqueEndpoints := 0, error := some msg }

/-- `processNetworkLogs(logs)` (lines 830–899): empty input short-circuits
to an empty success; otherwise filter/prioritize, then either merge by
endpoint group or process each log individually, catching any thrown
`AppError`. -/
def processNetworkLogs (opts : DataProcessingOptions)
    (logs : List NetworkLogEntry) : DataProcessingResult :=
  if logs.length = 0 then
    { success := true, processedData := [], totalLogs := 0
      bffApiCount := 0, uniqueEndpoints := 0, error := none }
  else
    let filteredLogs := filterAndPrioritizeLogs opts logs
    let computation : Except AppError (List ProcessedApiData × Nat) :=
      if opts.mergeDuplicates then
        processMerged (groupLogsByEndpoint filteredLogs)
      else
        .ok (filteredLogs.map processLogEntry,
             (filteredLogs.filter entryIsBffBlockApi).length)
    match computation with
    | .ok (processedData, bffApiCount) =>
      { success := true, processedData := processedData, totalLogs := logs.length
        bffApiCount := bffApiCount, uniqueEndpoints := processedData.length
        error := none }
    | .error e => failureResult logs.length e.message

/-! ### Capture Session (`browserController.ts`, `BrowserController`)

The Playwright surface is abstracted: an `ObservedResponse` is the data the
response listener can read from one fully resolved response, and a
`SessionRun` is the outcome of one `captureNetworkLogs` invocation — either
the session reached the drain signal having observed a list of responses,
or some step of the session (browser init, navigation, the wait) threw,
which the source catches in one place. -/

/-- The fields of one observed Playwright response/request pair that
`processNetworkResponse` reads.  `bodyText = none` models `response.text()`
throwing (an unreadable body). -/
structure ObservedResponse where
  url : String
  method : String
  requestHeaders : List (String × String)
  postData : Option String
  responseHeaders : List (String × String)
  status : Nat
  statusText : String
  bodyText : Option String
  resourceType : String
  now : Nat
deriving Repr, DecidableEq

/-- `headers()['content-type'] || ''`: first-match lookup with empty-string
default. -/
def headerLookup (hs : List (String × String)) (k : String) : String :=
  match hs.find? (fun p => p.1 = k) with
  | some p => p.2
  | none => ""

/-- The HTTP methods `shouldCaptureResponse` accepts (line 206). -/
def allowedMethods : List String := ["GET", "POST", "PUT", "PATCH", "DELETE"]

/-- `shouldCaptureResponse(response)` (lines 181–217): allowed host, JSON
content type, fetch/xhr resource, allowed method. -/
def shouldCaptureResponse (allowedHosts : List String) (r : ObservedResponse) : Bool :=
  isHostAllowed allowedHosts r.url
    && containsSub "application/json" (headerLookup r.responseHeaders "content-type")
    && (r.resourceType = "fetch" || r.resourceType = "xhr")
    && allowedMethods.contains (jsToUpper r.method)

/-- `processNetworkResponse(response)` (lines 222–280) with the current log
counter: `none` models the early `return null` of a filtered response; an
unreadable body degrades to `''`.  The entry's `isBffBlockApi` is the
classifier applied to the response URL. -/
def processNetworkResponse (allowedHosts : List String) (counter : Nat)
    (r : ObservedResponse) : Option NetworkLogEntry :=
  if shouldCaptureResponse allowedHosts r then
    some
      { id := "log_" ++ toString (counter + 1) ++ "_" ++ toString r.now
        request := { method := r.method, url := r.url, headers := r.requestHeaders
                     body := r.postData, timestamp := r.now }
        response := { status := r.status, statusText := r.statusText
                      headers := r.responseHeaders, body := r.bodyText.getD ""
                      contentType := headerLookup r.responseHeaders "content-type"
                      timestamp := r.now }
        resourceType := r.resourceType
        isBffBlockApi := isBffBlockApiPatternUrl r.url }
  else none

/-- The buffer built by the response listener over a capture window: each
observed response is processed with the running counter, which advances only
when an entry is created (`++this.logCounter`). -/
def acceptedLogs (allowedHosts : List String) (observed : List ObservedResponse) :
    List NetworkLogEntry :=
  (observed.foldl
    (fun (acc : List NetworkLogEntry × Nat) r =>
      match processNetworkResponse allowedHosts acc.2 r with
      | some e => (acc.1 ++ [e], acc.2 + 1)
      | none => acc)
    ([], 0)).1

/-- Outcome of one capture session: `ok observed` is a session that
initialized, navigated and reached the drain signal having observed these
fully resolved responses; `failed msg` is any exception thrown during the
session, which the source's catch receives. -/
inductive SessionRun where
  | ok (observed : List ObservedResponse)
  | failed (message : String)
deriving Repr, DecidableEq

/-- `NetworkCaptureResult` from `browserController.ts`. -/
structure NetworkCaptureResult where
  success : Bool
  logs : List NetworkLogEntry
  totalRequests : Nat
  filteredRequests : Nat
  error : Option String
deriving Repr, DecidableEq

/-- `captureNetworkLogs(url)` (lines 385–438): a drained session reports
success with the buffered logs and their counts; any thrown error is caught
and converted to a failure result (cleanup runs in `finally` and touches no
result field). -/
def captureNetworkLogs (allowedHosts : List String) : SessionRun → NetworkCaptureResult
  | .ok observed =>
    let logs := acceptedLogs allowedHosts observed
    { success := true, logs := logs, totalRequests := logs.length
      filteredRequests := (logs.filter (fun l => l.isBffBlockApi)).length
      error := none }
  | .failed msg =>
    { success := false, logs := [], totalRequests := 0, filteredRequests := 0
      error := some msg }

/-! ### Serializer (`aiGenerator.ts` `serializeForAI`, lines 904–924)

`JSON.stringify(aiData, null, 2)` is modelled by a deterministic printer
over the mapped records.  The source's catch wraps `JSON.stringify`, whose
only failure mode on this data shape is a cyclic structure; values of the
inductive `ProcessedApiData` are finite trees, so the throw path is
unreachable and the model always returns `.ok`. -/

/-- JSON string escaping for the characters that can occur here. -/
def escapeChar (c : Char) : List Char :=
  if c = '"' then ['\\', '"']
  else if c = '\\' then ['\\', '\\']
  else if c = '\n' then ['\\', 'n']
  else if c = '\r' then ['\\', 'r']
  else if c = '\t' then ['\\', 't']
  else [c]

/-- A JSON string literal. -/
def renderJsonString (s : String) : String :=
  "\"" ++ String.mk (s.toList.flatMap escapeChar) ++ "\""

/-- `n` spaces. -/
def indentStr (n : Nat) : String := String.mk (List.replicate n ' ')

/-- The `"key": value` lines of an object whose values are already rendered,
at nesting depth `d`, joined by `",\n"`. -/
def renderFields (d : Nat) : List (String × String) → String
  | [] => ""
  | [(k, v)] => indentStr (2 * (d + 1)) ++ renderJsonString k ++ ": " ++ v
  | (k, v) :: fs =>
    indentStr (2 * (d + 1)) ++ renderJsonString k ++ ": " ++ v ++ ",\n"
      ++ renderFields d fs

/-- A JSON object with pre-rendered values at nesting depth `d`, as
`JSON.stringify(…, null, 2)` prints it. -/
def renderObjAt (d : Nat) (fields : List (String × String)) : String :=
  match fields with
  | [] => "\x7b\x7d"
  | _ => "\x7b\n" ++ renderFields d fields ++ "\n" ++ indentStr (2 * d) ++ "\x7d"

/-- A string-to-string record as a JSON object at nesting depth `d`. -/
def renderParamsObj (d : Nat) (ps : List (String × String)) : String :=
  renderObjAt d (ps.map (fun p => (p.1, renderJsonString p.2)))

/-- The field list of the clean object `serializeForAI` builds per endpoint
(lines 907–913), in the source's literal order. -/
def apiFields (api : ProcessedApiData) : List (String × String) :=
  [ ("method", renderJsonString api.method)
  , ("url", renderJsonString api.url)
  , ("responseBody", renderJsonString api.responseBody)
  , ("queryParams", renderParamsObj 2 api.queryParams)
  , ("pathParams", renderParamsObj 2 api.pathParams) ]

/-- The top-level JSON array, elements pre-rendered. -/
def renderTopArray (items : List String) : String :=
  match items with
  | [] => "[]"
  | _ => "[\n" ++ String.intercalate ",\n" (items.map (fun s => indentStr 2 ++ s))
           ++ "\n]"

/-- `serializeForAI(processedData)` (lines 904–924): map each record to the
five-field object and stringify with two-space indentation; the catch
re-wraps a `JSON.stringify` failure, unreachable on this data shape. -/
def serializeForAI (data : List ProcessedApiData) : Except AppError String :=
  .ok (renderTopArray (data.map (fun api => renderObjAt 1 (apiFields api))))

/-! ### Concrete exchanges used as evaluation inputs -/

/-- A captured exchange with the given method, URL and response body;
metadata fields carry fixed innocuous values.  The stored `isBffBlockApi`
is what the capture path would store: the classifier applied to the URL. -/
def mkEntry (m u b : String) : NetworkLogEntry :=
  { id := "log_1_0"
    request := { method := m, url := u, headers := [], body := none, timestamp := 0 }
    response := { status := 200, statusText := "OK", headers := [], body := b
                  contentType := "application/json", timestamp := 0 }
    resourceType := "fetch"
    isBffBlockApi := isBffBlockApiPatternUrl u }

/-- A block-API exchange with a one-byte body. -/
def exBlockShort : NetworkLogEntry := mkEntry "GET" "https://h.example/blocks?keys=a" "x"

/-- A non-block exchange with the same endpoint identity as `exBlockShort`
and a two-byte body. -/
def exPlainLong : NetworkLogEntry := mkEntry "GET" "https://h.example/blocks" "xy"

/-- Two same-identity exchanges with bodies of equal length (a merge tie). -/
def exTieA : NetworkLogEntry := mkEntry "GET" "https://h.example/v1/items?page=1" "aa"

/-- See `exTieA`. -/
def exTieB : NetworkLogEntry := mkEntry "GET" "https://h.example/v1/items?page=2" "bb"

/-- A concrete merge group holding the two tied exchanges. -/
def exTieGroup : EndpointMergeInfo :=
  { endpointKey := "k", logs := [exTieA, exTieB], isBffBlockApi := false }

/-- Two exchanges whose URLs differ only in query string. -/
def exQueryA : NetworkLogEntry := mkEntry "GET" "https://h.example/v1/items?page=1" "a"

/-- See `exQueryA`. -/
def exQueryB : NetworkLogEntry := mkEntry "GET" "https://h.example/v1/items?page=2#frag" "b"

/-- An exchange whose URL does not parse. -/
def exBadUrl : NetworkLogEntry := mkEntry "GET" "not a url" "body"

/-! ## Helper lemmas -/

/-- An empty input survives filtering and prioritization unchanged. -/
theorem filterAndPrioritizeLogs_nil (opts : DataProcessingOptions) :
    filterAndPrioritizeLogs opts [] = [] := by
  simp [filterAndPrioritizeLogs, stableSort]

/-- A URL that fails to parse yields the empty query-parameter record. -/
theorem extractQueryParams_of_parse_fail {url : String} (h : parseURL url = none) :
    extractQueryParams url = [] := by
  simp [extractQueryParams, h]

/-- Any property preserved by one grouping step holds of every group the
fold builds. -/
theorem foldl_addLogToGroups_inv (P : EndpointMergeInfo → Prop)
    (hstep : ∀ groups log, (∀ g ∈ groups, P g) → ∀ g ∈ addLogToGroups groups log, P g) :
    ∀ (logs : List NetworkLogEntry) (acc : List EndpointMergeInfo),
      (∀ g ∈ acc, P g) → ∀ g ∈ logs.foldl addLogToGroups acc, P g := by
  intro logs
  induction logs with
  | nil => intro acc hacc; simpa using hacc
  | cons x xs ih =>
    intro acc hacc
    exact ih (addLogToGroups acc x) (hstep acc x hacc)

/-- Every group built by `groupLogsByEndpoint` has a non-empty member
list. -/
theorem groupLogsByEndpoint_ne_nil (logs : List NetworkLogEntry) :
    ∀ g ∈ groupLogsByEndpoint logs, g.logs ≠ [] := by
  refine foldl_addLogToGroups_inv (fun g => g.logs ≠ []) ?_ logs [] (by simp)
  intro groups log hinv g hg
  unfold addLogToGroups at hg
  by_cases hmem : groups.any (fun g => g.endpointKey = createEndpointKey log)
  · simp only [hmem, if_pos] at hg
    obtain ⟨g₀, hg₀, hfg⟩ := List.mem_map.mp hg
    by_cases hkey : g₀.endpointKey = createEndpointKey log
    · simp only [hkey, if_pos] at hfg
      subst hfg; simp
    · simp only [hkey, if_neg, ite_false] at hfg
      subst hfg; exact hinv g₀ hg₀
  · simp only [hmem, if_neg, Bool.false_eq_true, not_false_iff, ite_false] at hg
    rcases List.mem_append.mp hg with h | h
    · exact hinv g h
    · simp only [List.mem_singleton] at h
      subst h; simp

/-- Every group's flag is the logical OR of its members' classifications. -/
theorem groupLogsByEndpoint_flag_or (logs : List NetworkLogEntry) :
    ∀ g ∈ groupLogsByEndpoint logs, g.isBffBlockApi = g.logs.any entryIsBffBlockApi := by
  refine foldl_addLogToGroups_inv
    (fun g => g.isBffBlockApi = g.logs.any entryIsBffBlockApi) ?_ logs [] (by simp)
  intro groups log hinv g hg
  unfold addLogToGroups at hg
  by_cases hmem : groups.any (fun g => g.endpointKey = createEndpointKey log)
  · simp only [hmem, if_pos] at hg
    obtain ⟨g₀, hg₀, hfg⟩ := List.mem_map.mp hg
    by_cases hkey : g₀.endpointKey = createEndpointKey log
    · simp only [hkey, if_pos] at hfg
      subst hfg
      simp [List.any_append, hinv g₀ hg₀]
    · simp only [hkey, if_neg, ite_false] at hfg
      subst hfg; exact hinv g₀ hg₀
  · simp only [hmem, if_neg, Bool.false_eq_true, not_false_iff, ite_false] at hg
    rcases List.mem_append.mp hg with h | h
    · exact hinv g h
    · simp only [List.mem_singleton] at h
      subst h; simp

/-- The scanned best pair keeps its body component in sync with its log
component. -/
theorem pickBest_sync :
    ∀ (l : List NetworkLogEntry) (b : String × NetworkLogEntry),
      b.1 = b.2.response.body → (pickBest b l).1 = (pickBest b l).2.response.body := by
  intro l
  induction l with
  | nil => intro b hb; simpa [pickBest] using hb
  | cons x xs ih =>
    intro b hb
    have hstep : pickBest b (x :: xs)
        = pickBest (if x.response.body.length > b.1.length then (x.response.body, x) else b) xs :=
      rfl
    rw [hstep]
    by_cases h : x.response.body.length > b.1.length
    · rw [if_pos h]
      exact ih (x.response.body, x) rfl
    · rw [if_neg h]
      exact ih b hb

/-- Characterization of the representative scan: either no element strictly
beats the seed and the seed survives, or the result is the first element
attaining the maximal body length among those beating the seed. -/
theorem pickBest_spec :
    ∀ (l : List NetworkLogEntry) (b : String × NetworkLogEntry),
      (pickBest b l = b ∧ ∀ x ∈ l, x.response.body.length ≤ b.1.length)
      ∨ (∃ (i : Nat) (hi : i < l.length),
          pickBest b l = ((l.get ⟨i, hi⟩).response.body, l.get ⟨i, hi⟩)
          ∧ b.1.length < (l.get ⟨i, hi⟩).response.body.length
          ∧ (∀ x ∈ l, x.response.body.length ≤ (l.get ⟨i, hi⟩).response.body.length)
          ∧ (∀ x ∈ l.take i, x.response.body.length < (l.get ⟨i, hi⟩).response.body.length)) := by
  intro l
  induction l with
  | nil => intro b; exact Or.inl ⟨rfl, by simp⟩
  | cons x xs ih =>
    intro b
    have hstep₀ : pickBest b (x :: xs)
        = pickBest (if x.response.body.length > b.1.length then (x.response.body, x) else b) xs :=
      rfl
    by_cases h : x.response.body.length > b.1.length
    · have hstep : pickBest b (x :: xs) = pickBest (x.response.body, x) xs := by
        rw [hstep₀, if_pos h]
      rcases ih (x.response.body, x) with ⟨heq, hle⟩ | ⟨i, hi, heq, hgt, hle, hfirst⟩
      · refine Or.inr ⟨0, by simp, ?_, ?_, ?_, ?_⟩
        · rw [hstep, heq]; simp [List.get]
        · simpa [List.get] using h
        · intro y hy
          simp only [List.get]
          rcases List.mem_cons.mp hy with rfl | hy'
          · exact le_refl _
          · exact hle y hy'
        · intro y hy; simp at hy
      · refine Or.inr ⟨i + 1, by simpa using Nat.succ_lt_succ hi, ?_, ?_, ?_, ?_⟩
        · rw [hstep, heq]; simp [List.get]
        · simp only [List.get]
          exact lt_trans h hgt
        · intro y hy
          simp only [List.get]
          rcases List.mem_cons.mp hy with rfl | hy'
          · exact le_of_lt hgt
          · exact hle y hy'
        · intro y hy
          simp only [List.get]
          rw [List.take_succ_cons] at hy
          rcases List.mem_cons.mp hy with rfl | hy'
          · exact hgt
          · exact hfirst y hy'
    · have hstep : pickBest b (x :: xs) = pickBest b xs := by
        rw [hstep₀, if_neg h]
      have hxle : x.response.body.length ≤ b.1.length := Nat.not_lt.mp h
      rcases ih b with ⟨heq, hle⟩ | ⟨i, hi, heq, hgt, hle, hfirst⟩
      · refine Or.inl ⟨by rw [hstep, heq], ?_⟩
        intro y hy
        rcases List.mem_cons.mp hy with rfl | hy'
        · exact hxle
        · exact hle y hy'
      · refine Or.inr ⟨i + 1, by simpa using Nat.succ_lt_succ hi, ?_, ?_, ?_, ?_⟩
        · rw [hstep, heq]; simp [List.get]
        · simpa [List.get] using hgt
        · intro y hy
          simp only [List.get]
          rcases List.mem_cons.mp hy with rfl | hy'
          · exact le_of_lt (lt_of_le_of_lt hxle hgt)
          · exact hle y hy'
        · intro y hy
          simp only [List.get]
          rw [List.take_succ_cons] at hy
          rcases List.mem_cons.mp hy with rfl | hy'
          · exact lt_of_le_of_lt hxle hgt
          · exact hfirst y hy'

/-- Merging a non-empty group succeeds. -/
theorem mergeEndpointLogs_ok_of_ne_nil (info : EndpointMergeInfo)
    (h : info.logs ≠ []) : ∃ p, mergeEndpointLogs info = .ok p := by
  cases hl : info.logs with
  | nil => exact absurd hl h
  | cons baseLog rest =>
    cases hm : mergeEndpointLogs info with
    | ok p => exact ⟨p, rfl⟩
    | error e => simp [mergeEndpointLogs, hl] at hm

/-- On a non-empty group, the merge result is the `ProcessedApiData` of the
log the representative scan returns. -/
theorem mergeEndpointLogs_eq_processLogEntry (info : EndpointMergeInfo)
    (base : NetworkLogEntry) (rest : List NetworkLogEntry) (hl : info.logs = base :: rest) :
    mergeEndpointLogs info
      = .ok (processLogEntry (pickBest (base.response.body, base) (base :: rest)).2) := by
  have hsync := pickBest_sync (base :: rest) (base.response.body, base) rfl
  simp only [mergeEndpointLogs, hl, processLogEntry]
  rw [hsync]

/-- A merged record stores the query parameters extracted from its own
stored URL, and an empty path-parameter record. -/
theorem mergeEndpointLogs_fields {info : EndpointMergeInfo} {p : ProcessedApiData}
    (h : mergeEndpointLogs info = .ok p) :
    p.queryParams = extractQueryParams p.url ∧ p.pathParams = [] := by
  cases hl : info.logs with
  | nil => simp [mergeEndpointLogs, hl] at h
  | cons baseLog rest =>
    simp only [mergeEndpointLogs, hl, Except.ok.injEq] at h
    subst h
    exact ⟨rfl, rfl⟩

/-- Generalized-accumulator form of the merge loop: on groups with
non-empty member lists it never throws, emits one record per group in
order, and counts exactly the flagged groups. -/
theorem processMerged_aux (groups : List EndpointMergeInfo) :
    ∀ acc : List ProcessedApiData × Nat, (∀ g ∈ groups, g.logs ≠ []) →
      ∃ ps, groups.foldlM processMergedStep acc
          = .ok (acc.1 ++ ps, acc.2 + (groups.filter (fun g => g.isBffBlockApi)).length)
        ∧ ps.length = groups.length
        ∧ ∀ p ∈ ps, ∃ g, g ∈ groups ∧ mergeEndpointLogs g = .ok p := by
  induction groups with
  | nil =>
    intro acc _
    refine ⟨[], ?_, by simp, by simp⟩
    show pure acc = Except.ok (acc.1 ++ [], acc.2 + ([].filter (fun g => g.isBffBlockApi)).length)
    simp [pure, Except.pure]
  | cons g gs ih =>
    intro acc hne
    obtain ⟨p, hp⟩ := mergeEndpointLogs_ok_of_ne_nil g (hne g (by simp))
    have hstep : (g :: gs).foldlM processMergedStep acc
        = gs.foldlM processMergedStep
            (acc.1 ++ [p], acc.2 + (if g.isBffBlockApi then 1 else 0)) := by
      simp only [List.foldlM_cons, processMergedStep, hp]
      rfl
    obtain ⟨ps', hfold, hlen, hmem⟩ :=
      ih (acc.1 ++ [p], acc.2 + (if g.isBffBlockApi then 1 else 0))
        (fun g' hg' => hne g' (List.mem_cons_of_mem _ hg'))
    refine ⟨p :: ps', ?_, by simp [hlen], ?_⟩
    · rw [hstep, hfold]
      have hcount : acc.2 + (if g.isBffBlockApi then 1 else 0)
            + (gs.filter (fun g => g.isBffBlockApi)).length
          = acc.2 + ((g :: gs).filter (fun g => g.isBffBlockApi)).length := by
        by_cases hb : g.isBffBlockApi = true
        · simp [List.filter_cons, hb]
          omega
        · simp [List.filter_cons, hb]
      rw [hcount]
      simp
    · intro q hq
      rcases List.mem_cons.mp hq with rfl | hq'
      · exact ⟨g, by simp, hp⟩
      · obtain ⟨g', hg', hok⟩ := hmem q hq'
        exact ⟨g', by simp [hg'], hok⟩

/-- The merge branch on groups with non-empty member lists: no throw, one
record per group, flagged groups counted. -/
theorem processMerged_ok (groups : List EndpointMergeInfo)
    (hne : ∀ g ∈ groups, g.logs ≠ []) :
    ∃ ps, processMerged groups
        = .ok (ps, (groups.filter (fun g => g.isBffBlockApi)).length)
      ∧ ps.length = groups.length
      ∧ ∀ p ∈ ps, ∃ g, g ∈ groups ∧ mergeEndpointLogs g = .ok p := by
  obtain ⟨ps, h1, h2, h3⟩ := processMerged_aux groups ([], 0) hne
  exact ⟨ps, by simpa [processMerged] using h1, h2, h3⟩

/-- The comparator accepts `x` no later than `y` exactly when `x` is a
block API or `y` is not. -/
theorem bffComparator_le_zero (x y : NetworkLogEntry) :
    bffComparator x y ≤ 0 ↔ (entryIsBffBlockApi x = true ∨ entryIsBffBlockApi y = false) := by
  cases hx : entryIsBffBlockApi x <;> cases hy : entryIsBffBlockApi y <;>
    simp [bffComparator, hx, hy]

/-- Insertion walks past every element it compares greater than. -/
theorem sortedInsert_append (x : NetworkLogEntry) (B : List NetworkLogEntry) :
    ∀ A : List NetworkLogEntry, (∀ a ∈ A, ¬ bffComparator x a ≤ 0) →
      sortedInsert bffComparator x (A ++ B) = A ++ sortedInsert bffComparator x B := by
  intro A
  induction A with
  | nil => intro _; simp
  | cons a A' ih =>
    intro h
    have ha : ¬ bffComparator x a ≤ 0 := h a (by simp)
    simp only [List.cons_append, sortedInsert, if_neg ha]
    exact congrArg (fun t => a :: t) (ih (fun a' ha' => h a' (List.mem_cons_of_mem _ ha')))

/-- Insertion stops immediately before a list it compares no greater
than. -/
theorem sortedInsert_stops (x : NetworkLogEntry) (B : List NetworkLogEntry)
    (h : ∀ b ∈ B, bffComparator x b ≤ 0) :
    sortedInsert bffComparator x B = x :: B := by
  cases B with
  | nil => rfl
  | cons y ys => simp only [sortedInsert, if_pos (h y (by simp))]

/-- The stable sort with the block-API comparator is exactly the stable
partition: block APIs first, each class in original relative order. -/
theorem stableSort_partition (logs : List NetworkLogEntry) :
    stableSort bffComparator logs
      = logs.filter entryIsBffBlockApi
          ++ logs.filter (fun l => !entryIsBffBlockApi l) := by
  induction logs with
  | nil => rfl
  | cons x xs ih =>
    show sortedInsert bffComparator x (stableSort bffComparator xs) = _
    rw [ih]
    by_cases hx : entryIsBffBlockApi x = true
    · rw [sortedInsert_stops]
      · simp [List.filter_cons, hx]
      · intro b _
        exact (bffComparator_le_zero x b).mpr (Or.inl hx)
    · have hx' : entryIsBffBlockApi x = false := by
        cases h : entryIsBffBlockApi x
        · rfl
        · exact absurd h hx
      have hA : ∀ a ∈ xs.filter entryIsBffBlockApi, ¬ bffComparator x a ≤ 0 := by
        intro a ha
        have hpa : entryIsBffBlockApi a = true := (List.mem_filter.mp ha).2
        rw [bffComparator_le_zero]
        simp [hx', hpa]
      have hB : ∀ b ∈ xs.filter (fun l => !entryIsBffBlockApi l), bffComparator x b ≤ 0 := by
        intro b hb
        have hpb := (List.mem_filter.mp hb).2
        rw [Bool.not_eq_true'] at hpb
        exact (bffComparator_le_zero x b).mpr (Or.inr hpb)
      rw [sortedInsert_append x (xs.filter (fun l => !entryIsBffBlockApi l))
            (xs.filter entryIsBffBlockApi) hA,
          sortedInsert_stops x (xs.filter (fun l => !entryIsBffBlockApi l)) hB]
      simp [List.filter_cons, hx']

/-- Master shape of `processNetworkLogs`: it always succeeds, reports the
input length, sets `uniqueEndpoints` to the output length, and its output
and count are characterized on each branch. -/
theorem processNetworkLogs_shape (opts : DataProcessingOptions)
    (logs : List NetworkLogEntry) :
    ∃ ps k,
      processNetworkLogs opts logs
        = { success := true, processedData := ps, totalLogs := logs.length
            bffApiCount := k, uniqueEndpoints := ps.length, error := none }
      ∧ (opts.mergeDuplicates = true →
          ps.length = (groupLogsByEndpoint (filterAndPrioritizeLogs opts logs)).length
          ∧ k = ((groupLogsByEndpoint (filterAndPrioritizeLogs opts logs)).filter
                  (fun g => g.isBffBlockApi)).length
          ∧ ∀ p ∈ ps, ∃ g, g ∈ groupLogsByEndpoint (filterAndPrioritizeLogs opts logs)
              ∧ mergeEndpointLogs g = .ok p)
      ∧ (opts.mergeDuplicates = false →
          ps = (filterAndPrioritizeLogs opts logs).map processLogEntry
          ∧ k = ((filterAndPrioritizeLogs opts logs).filter entryIsBffBlockApi).length) := by
  by_cases h0 : logs.length = 0
  · have hl : logs = [] := List.length_eq_zero.mp h0
    subst hl
    refine ⟨[], 0, by simp [processNetworkLogs], ?_, ?_⟩
    · intro _
      refine ⟨?_, ?_, ?_⟩ <;>
        simp [filterAndPrioritizeLogs_nil, groupLogsByEndpoint]
    · intro _
      constructor <;> simp [filterAndPrioritizeLogs_nil]
  · cases hmerge : opts.mergeDuplicates
    · refine ⟨(filterAndPrioritizeLogs opts logs).map processLogEntry,
        ((filterAndPrioritizeLogs opts logs).filter entryIsBffBlockApi).length,
        ?_, ?_, ?_⟩
      · simp [processNetworkLogs, h0, hmerge]
      · intro hm
        exact absurd hm (by simp)
      · intro _
        exact ⟨rfl, rfl⟩
    · obtain ⟨ps, hfold, hlen, hmem⟩ :=
        processMerged_ok (groupLogsByEndpoint (filterAndPrioritizeLogs opts logs))
          (groupLogsByEndpoint_ne_nil _)
      refine ⟨ps, ((groupLogsByEndpoint (filterAndPrioritizeLogs opts logs)).filter
        (fun g => g.isBffBlockApi)).length, ?_, ?_, ?_⟩
      · simp [processNetworkLogs, h0, hmerge, hfold]
      · intro _
        exact ⟨hlen, rfl, hmem⟩
      · intro hm
        exact absurd hm (by simp)

/-- A capture-path log entry stores exactly the block-API classification of
its own request URL. -/
theorem processNetworkResponse_classifies (allowedHosts : List String)
    (counter : Nat) (r : ObservedResponse) (e : NetworkLogEntry)
    (h : processNetworkResponse allowedHosts counter r = some e) :
    e.isBffBlockApi = isBffBlockApiPatternUrl e.request.url := by
  unfold processNetworkResponse at h
  by_cases hc : shouldCaptureResponse allowedHosts r = true
  · rw [if_pos hc] at h
    cases h
    rfl
  · rw [if_neg hc] at h
    cases h

/-- Every entry the capture buffer accumulates carries the classification of
its own URL. -/
theorem acceptedLogs_classified (allowedHosts : List String)
    (observed : List ObservedResponse) :
    ∀ e ∈ acceptedLogs allowedHosts observed,
      e.isBffBlockApi = isBffBlockApiPatternUrl e.request.url := by
  have main : ∀ (obs : List ObservedResponse) (acc : List NetworkLogEntry × Nat),
      (∀ e ∈ acc.1, e.isBffBlockApi = isBffBlockApiPatternUrl e.request.url) →
      ∀ e ∈ (obs.foldl
        (fun (acc : List NetworkLogEntry × Nat) r =>
          match processNetworkResponse allowedHosts acc.2 r with
          | some e => (acc.1 ++ [e], acc.2 + 1)
          | none => acc) acc).1,
        e.isBffBlockApi = isBffBlockApiPatternUrl e.request.url := by
    intro obs
    induction obs with
    | nil => intro acc hacc; simpa using hacc
    | cons r rs ih =>
      intro acc hacc
      simp only [List.foldl_cons]
      cases hr : processNetworkResponse allowedHosts acc.2 r with
      | none =>
        refine ih acc ?_
        exact hacc
      | some e' =>
        refine ih (acc.1 ++ [e'], acc.2 + 1) ?_
        intro e he
        rcases List.mem_append.mp he with h | h
        · exact hacc e h
        · rw [List.mem_singleton] at h
          subst h
          exact processNetworkResponse_classifies allowedHosts acc.2 r e hr
  exact main observed ([], 0) (by simp)

/-! ## Claim theorems -/

/-- Claim C4: for every URL string the block-API classifier is defined (it
is a total `Bool`-valued function) and returns `true` iff the URL parses
and its path contains the literal `/blocks` and its query string has a
parameter named `keys`; a URL that fails to parse classifies as `false`.
The final conjunct identifies the `aiGenerator.ts` copy of the classifier
with the `browserController.ts` one. -/
theorem isBffBlockApiPattern_spec (url : String) :
    (isBffBlockApiPatternUrl url = true ↔
      ∃ u, parseURL url = some u ∧ containsSub "/blocks" u.pathname = true
        ∧ searchParamsHas u.search "keys" = true)
    ∧ (parseURL url = none → isBffBlockApiPatternUrl url = false)
    ∧ (∀ log : NetworkLogEntry, entryIsBffBlockApi log = isBffBlockApiPatternUrl log.request.url) := by
  refine ⟨?_, ?_, fun _ => rfl⟩
  · cases hp : parseURL url with
    | none => simp [isBffBlockApiPatternUrl, hp]
    | some u => simp [isBffBlockApiPatternUrl, hp]
  · intro hp
    simp [isBffBlockApiPatternUrl, hp]

/-- Witness for C4: the classifier accepts a concrete block-API URL and
rejects a concrete unparseable one. -/
theorem isBffBlockApiPattern_spec_witness :
    isBffBlockApiPatternUrl "https://api.example.com/v1/blocks?keys=home.banner" = true
    ∧ isBffBlockApiPatternUrl "not a url" = false := by
  constructor
  · exact (isBffBlockApiPattern_spec "https://api.example.com/v1/blocks?keys=home.banner").1.mpr
      ⟨⟨"https", "api.example.com", "/v1/blocks", "keys=home.banner", ""⟩,
        by decide, by decide, by decide⟩
  · exact (isBffBlockApiPattern_spec "not a url").2.1 (by decide)

/-- Counterexample to C5 as stated: with an empty `allowedHosts` list the
filter accepts even a URL that fails to parse, because the source returns
`true` for an empty list before attempting to parse; so "a URL that fails
to parse is rejected" does not hold unconditionally. -/
theorem isHostAllowed_reject_counterexample :
    isHostAllowed [] "not a url" = true ∧ parseURL "not a url" = none := by
  exact ⟨by decide, by decide⟩

/-- Claim C5 (amended): the host filter accepts iff `allowedHosts` is empty
(in which case every URL is accepted, parseable or not), or the URL parses
and its hostname equals some entry or ends with `"." + entry`; when
`allowedHosts` is non-empty a URL that fails to parse is rejected
(immediate from the iff, which leaves only the `hosts = []` disjunct), and
the filter is a total `Bool`-valued function (never throws). -/
theorem isHostAllowed_spec (hosts : List String) (url : String) :
    isHostAllowed hosts url = true ↔
      (hosts = [] ∨ ∃ u, parseURL url = some u
        ∧ ∃ h ∈ hosts, (u.hostname = h ∨ jsEndsWith u.hostname ("." ++ h) = true)) := by
  by_cases hh : hosts = []
  · subst hh
    simp [isHostAllowed]
  · have hlen : ¬ hosts.length = 0 := by simpa [List.length_eq_zero] using hh
    cases hp : parseURL url with
    | none => simp [isHostAllowed, hlen, hp, hh]
    | some u => simp [isHostAllowed, hlen, hp, hh]

/-- Witness for C5 (amended): a subdomain of an allowed host is accepted. -/
theorem isHostAllowed_spec_witness :
    isHostAllowed ["api.example.com"] "https://sub.api.example.com/x" = true :=
  (isHostAllowed_spec ["api.example.com"] "https://sub.api.example.com/x").mpr
    (Or.inr ⟨⟨"https", "sub.api.example.com", "/x", "", ""⟩, by decide,
      "api.example.com", by decide, Or.inr (by decide)⟩)

/-- Claim C6: the grouping key is a pure function of an exchange's method
and URL; on a parseable URL it is built from the uppercased method, the
hostname and the pathname only (so two exchanges differing only in query
string or fragment share a key), and on a parse failure it is the literal
method/URL pair. -/
theorem createEndpointKey_spec (log : NetworkLogEntry) :
    (∀ u, parseURL log.request.url = some u →
      createEndpointKey log = jsToUpper log.request.method ++ " " ++ u.hostname ++ u.pathname)
    ∧ (parseURL log.request.url = none →
      createEndpointKey log = log.request.method ++ " " ++ log.request.url)
    ∧ (∀ log₂ : NetworkLogEntry, log.request.method = log₂.request.method →
        log.request.url = log₂.request.url → createEndpointKey log = createEndpointKey log₂)
    ∧ (∀ (log₂ : NetworkLogEntry) (u u₂ : URLRec),
        parseURL log.request.url = some u → parseURL log₂.request.url = some u₂ →
        log.request.method = log₂.request.method → u.hostname = u₂.hostname →
        u.pathname = u₂.pathname → createEndpointKey log = createEndpointKey log₂) := by
  refine ⟨?_, ?_, ?_, ?_⟩
  · intro u hu
    simp [createEndpointKey, hu]
  · intro hu
    simp [createEndpointKey, hu]
  · intro log₂ hm hu
    unfold createEndpointKey
    rw [hm, hu]
  · intro log₂ u u₂ hu hu₂ hm hh hp
    simp [createEndpointKey, hu, hu₂, hm, hh, hp]

/-- Witness for C6: two concrete exchanges whose URLs differ only in query
string and fragment share a key, and a concrete unparseable URL falls back
to the literal pair. -/
theorem createEndpointKey_spec_witness :
    createEndpointKey exQueryA = createEndpointKey exQueryB
    ∧ createEndpointKey exBadUrl = "GET" ++ " " ++ "not a url" := by
  constructor
  · exact (createEndpointKey_spec exQueryA).2.2.2 exQueryB
      ⟨"https", "h.example", "/v1/items", "page=1", ""⟩
      ⟨"https", "h.example", "/v1/items", "page=2", "frag"⟩
      (by decide) (by decide) rfl rfl rfl
  · exact (createEndpointKey_spec exBadUrl).2.1 (by decide)

/-- Counterexample to C1 as stated: the output `ProcessedApiData` records
carry no `isBlockApi` boolean.  Two runs whose single merged group has a
different OR-over-members classification (one contains a block-API
exchange, the other does not) produce identical output records, so no field
of the output carries the claimed flag; only the result's `bffApiCount`
differs. -/
theorem processedData_no_flag_counterexample :
    (processNetworkLogs {} [exBlockShort, exPlainLong]).processedData
      = (processNetworkLogs {} [exPlainLong]).processedData
    ∧ (processNetworkLogs {} [exBlockShort, exPlainLong]).bffApiCount = 1
    ∧ (processNetworkLogs {} [exPlainLong]).bffApiCount = 0
    ∧ entryIsBffBlockApi exBlockShort = true
    ∧ entryIsBffBlockApi exPlainLong = false
    ∧ createEndpointKey exBlockShort = createEndpointKey exPlainLong := by
  refine ⟨by decide, by decide, by decide, by decide, by decide, by decide⟩

/-- Claim C1 (amended): the emitted `ProcessedApiData` records carry no
block-API flag; the classification instead feeds the result's
`bffApiCount`, which with `mergeDuplicates = true` counts the merged groups
whose flag — the logical OR of the classifier over the group's members — is
set, and with `mergeDuplicates = false` counts the surviving exchanges
individually matching the classifier. -/
theorem bffApiCount_characterization (pri inc : Bool) (mx : Int)
    (logs : List NetworkLogEntry) :
    (processNetworkLogs ⟨true, pri, mx, inc⟩ logs).bffApiCount
      = ((groupLogsByEndpoint (filterAndPrioritizeLogs ⟨true, pri, mx, inc⟩ logs)).filter
          (fun g => g.isBffBlockApi)).length
    ∧ (processNetworkLogs ⟨false, pri, mx, inc⟩ logs).bffApiCount
      = ((filterAndPrioritizeLogs ⟨false, pri, mx, inc⟩ logs).filter entryIsBffBlockApi).length
    ∧ ∀ g ∈ groupLogsByEndpoint (filterAndPrioritizeLogs ⟨true, pri, mx, inc⟩ logs),
        g.isBffBlockApi = g.logs.any entryIsBffBlockApi := by
  refine ⟨?_, ?_, groupLogsByEndpoint_flag_or _⟩
  · obtain ⟨ps, k, heq, hm, _⟩ := processNetworkLogs_shape ⟨true, pri, mx, inc⟩ logs
    rw [heq]
    exact (hm rfl).2.1
  · obtain ⟨ps, k, heq, _, hm⟩ := processNetworkLogs_shape ⟨false, pri, mx, inc⟩ logs
    rw [heq]
    exact (hm rfl).2

/-- Witness for C1 (amended): the flag of the concrete single group built
from one block-API exchange is the OR of its members' classifications. -/
theorem bffApiCount_characterization_witness :
    ({ endpointKey := "GET h.example/blocks", logs := [exBlockShort], isBffBlockApi := true }
        : EndpointMergeInfo).isBffBlockApi
      = [exBlockShort].any entryIsBffBlockApi := by
  exact (bffApiCount_characterization true false 50 [exBlockShort]).2.2
    { endpointKey := "GET h.example/blocks", logs := [exBlockShort], isBffBlockApi := true }
    (by decide)

/-- Claim C2: merging a non-empty group succeeds and returns the record of
a member at some index `i` whose response body is longest in the group,
every member strictly before `i` having a strictly shorter body — so the
representative is the first member of maximal body length, ties at equal
maximal length going to the earlier exchange.  The index is uniquely
determined by these bounds and `mergeEndpointLogs` is a pure function, so
re-running the merge on the same list yields the same representative. -/
theorem mergeEndpointLogs_representative (info : EndpointMergeInfo)
    (hne : info.logs ≠ []) :
    ∃ (i : Nat) (hi : i < info.logs.length),
      mergeEndpointLogs info = .ok (processLogEntry (info.logs.get ⟨i, hi⟩))
      ∧ (∀ x ∈ info.logs,
          x.response.body.length ≤ (info.logs.get ⟨i, hi⟩).response.body.length)
      ∧ (∀ x ∈ info.logs.take i,
          x.response.body.length < (info.logs.get ⟨i, hi⟩).response.body.length) := by
  cases hl : info.logs with
  | nil => exact absurd hl hne
  | cons base rest =>
    have hm := mergeEndpointLogs_eq_processLogEntry info base rest hl
    rcases pickBest_spec (base :: rest) (base.response.body, base) with
      ⟨heq, hle⟩ | ⟨i, hi, heq, _, hle, hfirst⟩
    · refine ⟨0, by simp, ?_, ?_, ?_⟩
      · rw [hm, heq]
        rfl
      · intro x hx
        exact hle x hx
      · intro x hx
        simp at hx
    · refine ⟨i, hi, ?_, hle, hfirst⟩
      rw [hm, heq]

/-- Witness for C2: on a concrete two-member group with equal body lengths
the merge returns the first member's record. -/
theorem mergeEndpointLogs_representative_witness :
    mergeEndpointLogs exTieGroup = .ok (processLogEntry exTieA) := by
  obtain ⟨i, hi, heq, hle, hfirst⟩ :=
    mergeEndpointLogs_representative exTieGroup (by decide)
  rcases i with _ | _ | n
  · rw [heq]
    rfl
  · have hmem : exTieA ∈ exTieGroup.logs.take (0 + 1) := by decide
    have hlt := hfirst exTieA hmem
    have hget : exTieGroup.logs.get ⟨0 + 1, hi⟩ = exTieB := rfl
    rw [hget] at hlt
    exact absurd hlt (by decide)
  · exfalso
    have hlen : exTieGroup.logs.length = 2 := rfl
    omega

/-- Claim C3: preprocessing first stably partitions the input (when
`prioritizeBffApis` holds) so that block-API exchanges precede the rest,
each class keeping its original relative order, then truncates to the first
`maxApis` entries exactly when `maxApis > 0` (so `0` means unlimited); the
second conjunct shows the cap is applied before grouping — the merged
output size is the number of groups of the already-filtered list. -/
theorem filterAndPrioritizeLogs_spec :
    (∀ (opts : DataProcessingOptions) (logs : List NetworkLogEntry),
      filterAndPrioritizeLogs opts logs
        = (let reordered := if opts.prioritizeBffApis then
              logs.filter entryIsBffBlockApi ++ logs.filter (fun l => !entryIsBffBlockApi l)
            else logs
           if opts.maxApis > 0 then reordered.take opts.maxApis.toNat else reordered))
    ∧ (∀ (pri inc : Bool) (mx : Int) (logs : List NetworkLogEntry),
        (processNetworkLogs ⟨true, pri, mx, inc⟩ logs).uniqueEndpoints
          = (groupLogsByEndpoint (filterAndPrioritizeLogs ⟨true, pri, mx, inc⟩ logs)).length) := by
  constructor
  · intro opts logs
    unfold filterAndPrioritizeLogs
    cases hp : opts.prioritizeBffApis
    · simp [hp]
    · simp [hp, stableSort_partition]
  · intro pri inc mx logs
    obtain ⟨ps, k, heq, hm, _⟩ := processNetworkLogs_shape ⟨true, pri, mx, inc⟩ logs
    rw [heq]
    exact (hm rfl).1

/-- Claim C7: normalization never throws for data-quality reasons — every
result is a success (the only internal throw, `EMPTY_LOGS`, is unreachable
because every group is non-empty by construction); an empty input yields
the empty successful result for every options value; and every emitted
record's query parameters come from its own URL, so a representative whose
URL fails to parse gets the empty mapping rather than an error. -/
theorem processNetworkLogs_graceful :
    (∀ opts : DataProcessingOptions,
      processNetworkLogs opts []
        = { success := true, processedData := [], totalLogs := 0
            bffApiCount := 0, uniqueEndpoints := 0, error := none })
    ∧ (∀ (opts : DataProcessingOptions) (logs : List NetworkLogEntry),
        (processNetworkLogs opts logs).success = true
        ∧ (processNetworkLogs opts logs).error = none)
    ∧ (∀ (opts : DataProcessingOptions) (logs : List NetworkLogEntry)
        (p : ProcessedApiData), p ∈ (processNetworkLogs opts logs).processedData →
          p.queryParams = extractQueryParams p.url
          ∧ (parseURL p.url = none → p.queryParams = [])) := by
  refine ⟨?_, ?_, ?_⟩
  · intro opts
    simp [processNetworkLogs]
  · intro opts logs
    obtain ⟨ps, k, heq, _, _⟩ := processNetworkLogs_shape opts logs
    rw [heq]
    exact ⟨rfl, rfl⟩
  · intro opts logs p hp
    obtain ⟨ps, k, heq, hmt, hmf⟩ := processNetworkLogs_shape opts logs
    rw [heq] at hp
    have hqp : p.queryParams = extractQueryParams p.url := by
      cases hd : opts.mergeDuplicates
      · obtain ⟨hps, _⟩ := hmf hd
        rw [hps] at hp
        obtain ⟨l, _, hpl⟩ := List.mem_map.mp hp
        rw [← hpl]
        rfl
      · obtain ⟨_, _, hmem⟩ := hmt hd
        obtain ⟨g, _, hok⟩ := hmem p hp
        exact (mergeEndpointLogs_fields hok).1
    refine ⟨hqp, fun hnone => ?_⟩
    rw [hqp]
    exact extractQueryParams_of_parse_fail hnone

/-- Witness for C7: a concrete run over one exchange with an unparseable
URL emits a record with the empty query-parameter mapping. -/
theorem processNetworkLogs_graceful_witness :
    (processLogEntry exBadUrl).queryParams = [] := by
  have h := processNetworkLogs_graceful.2.2 {} [exBadUrl] (processLogEntry exBadUrl) (by decide)
  exact h.2 (by decide)

/-- Claim C8: serialization is a deterministic pure function of the five
endpoint fields (the record has no timestamp to embed), renders each
endpoint's fields in the fixed order method, url, responseBody,
queryParams, pathParams, and always returns `.ok` — values of the inductive
`ProcessedApiData` are finite trees, so the cyclic-structure failure
`JSON.stringify` could raise (the source's one rethrow path) cannot occur,
making "raises iff cyclic" hold with both sides false. -/
theorem serializeForAI_spec (data : List ProcessedApiData) :
    serializeForAI data
      = .ok (renderTopArray (data.map (fun api => renderObjAt 1 (apiFields api))))
    ∧ (∀ api : ProcessedApiData,
        (apiFields api).map Prod.fst
          = ["method", "url", "responseBody", "queryParams", "pathParams"])
    ∧ (∀ data₂ : List ProcessedApiData,
        data.map (fun a => (a.method, a.url, a.responseBody, a.queryParams, a.pathParams))
          = data₂.map (fun a => (a.method, a.url, a.responseBody, a.queryParams, a.pathParams))
        → serializeForAI data = serializeForAI data₂) := by
  refine ⟨rfl, fun api => rfl, ?_⟩
  intro data₂ hmap
  have hinj : Function.Injective
      (fun a : ProcessedApiData =>
        (a.method, a.url, a.responseBody, a.queryParams, a.pathParams)) := by
    intro a b hab
    cases a
    cases b
    simp only [Prod.mk.injEq] at hab
    obtain ⟨h1, h2, h3, h4, h5⟩ := hab
    simp [h1, h2, h3, h4, h5]
  have hdata : data = data₂ := List.map_injective_iff.mpr hinj hmap
  rw [hdata]

/-- Witness for C8: the empty collection serializes to the empty JSON
array, and equal field projections give equal output. -/
theorem serializeForAI_spec_witness :
    serializeForAI [] = .ok "[]"
    ∧ serializeForAI [⟨"GET", "u", "b", [], []⟩]
        = serializeForAI [⟨"GET", "u", "b", [], []⟩] := by
  constructor
  · exact (serializeForAI_spec []).1.trans rfl
  · exact (serializeForAI_spec [⟨"GET", "u", "b", [], []⟩]).2.2 _ rfl

/-- Claim C9: a session that reaches draining is reported successful (with
the empty log list when nothing was accepted), its `totalRequests` is the
number of accepted exchanges and its `filteredRequests` is the number of
those the classifier marks as block APIs; every thrown exception is caught
and converted to a failure result with empty logs, zero counts and an error
message — `captureNetworkLogs` is total on session outcomes, never
propagating. -/
theorem captureNetworkLogs_spec (allowedHosts : List String) :
    (∀ observed : List ObservedResponse,
      (captureNetworkLogs allowedHosts (.ok observed)).success = true
      ∧ (captureNetworkLogs allowedHosts (.ok observed)).error = none
      ∧ (captureNetworkLogs allowedHosts (.ok observed)).totalRequests
          = (captureNetworkLogs allowedHosts (.ok observed)).logs.length
      ∧ (captureNetworkLogs allowedHosts (.ok observed)).filteredRequests
          = ((captureNetworkLogs allowedHosts (.ok observed)).logs.filter
              (fun e => isBffBlockApiPatternUrl e.request.url)).length)
    ∧ captureNetworkLogs allowedHosts (.ok [])
        = { success := true, logs := [], totalRequests := 0, filteredRequests := 0
            error := none }
    ∧ (∀ msg : String,
        captureNetworkLogs allowedHosts (.failed msg)
          = { success := false, logs := [], totalRequests := 0, filteredRequests := 0
              error := some msg }) := by
  refine ⟨?_, rfl, fun msg => rfl⟩
  intro observed
  refine ⟨rfl, rfl, rfl, ?_⟩
  show ((acceptedLogs allowedHosts observed).filter (fun l => l.isBffBlockApi)).length = _
  exact congrArg List.length
    (List.filter_congr (fun e he => acceptedLogs_classified allowedHosts observed e he))

/-- Claim C10: every normalization result reports `uniqueEndpoints` equal
to the length of its `processedData` and `totalLogs` equal to the input
length, and the catch-branch result (the failure path) has empty
`processedData`, zero `bffApiCount` and `uniqueEndpoints`, `success =
false`, and still the input length as `totalLogs`. -/
theorem processNetworkLogs_counts :
    (∀ (opts : DataProcessingOptions) (logs : List NetworkLogEntry),
      (processNetworkLogs opts logs).uniqueEndpoints
        = (processNetworkLogs opts logs).processedData.length
      ∧ (processNetworkLogs opts logs).totalLogs = logs.length)
    ∧ (∀ (n : Nat) (msg : String),
        (failureResult n msg).success = false
        ∧ (failureResult n msg).processedData = []
        ∧ (failureResult n msg).bffApiCount = 0
        ∧ (failureResult n msg).uniqueEndpoints = 0
        ∧ (failureResult n msg).totalLogs = n) := by
  constructor
  · intro opts logs
    obtain ⟨ps, k, heq, _, _⟩ := processNetworkLogs_shape opts logs
    rw [heq]
    exact ⟨rfl, rfl⟩
  · intro n msg
    exact ⟨rfl, rfl, rfl, rfl, rfl⟩

end MockGen
